import Mathlib

/-!
Verification of the sampling engine of `stable-audio-tools`
(`harmonai_tools/inference/sampling.py` and `stable_audio_tools/data/utils.py`).

Tensors are modelled exactly-valued: elementwise code over a tensor is
embedded pointwise over functions `ι → ℚ` (an index type `ι` stands for the
tensor's position space), and the shape-sensitive crop/pad utilities are
embedded over `List ℚ` rows so that a shape is a length.  The DDIM sampler's
trigonometric schedule is embedded over `ℝ`.
-/

open Real

namespace Sampling

/-! ### MaskScheduler: `get_bmask`

Python:
```
def get_bmask(i, steps, mask):
    strength = (i+1)/(steps)
    bmask = torch.where(mask<=strength,1,0)
    return bmask
```
Elementwise value of the binary mask at a soft-mask entry `m`. -/
def get_bmask (i steps : ℕ) (m : ℚ) : ℚ :=
  if m ≤ ((i : ℚ) + 1) / (steps : ℚ) then 1 else 0

section Tensors

variable {ι : Type}

/-- Pointwise tensor addition (`a + b`). -/
def tAdd (a b : ι → ℚ) : ι → ℚ := fun p => a p + b p

/-- Pointwise tensor multiplication (`a * b`). -/
def tMul (a b : ι → ℚ) : ι → ℚ := fun p => a p * b p

/-- Scalar times tensor (`c * a`). -/
def tSmul (c : ℚ) (a : ι → ℚ) : ι → ℚ := fun p => c * a p

/-- Pointwise `1 - a`. -/
def tOneSub (a : ι → ℚ) : ι → ℚ := fun p => 1 - a p

/-- `get_bmask` applied elementwise to a soft-mask tensor. -/
def bmaskT (i steps : ℕ) (mask : ι → ℚ) : ι → ℚ :=
  fun p => get_bmask i steps (mask p)

/-! ### `sample_k`: mode selection for the initial latent

Python (after `noise = noise * sigmas[0]`):
```
if mask is None and init_audio is not None:
    x = init_audio + noise
elif mask is not None and init_audio is not None:
    bmask = get_bmask(0, steps, mask)
    input_noised = init_audio + noise
    x = input_noised * bmask + noise * (1-bmask)
else:
    x = noise
```
`sigma0` stands for `sigmas[0]`, the first entry of the externally generated
polyexponential schedule. -/
def sampleKInit (noise : ι → ℚ) (init_audio mask : Option (ι → ℚ))
    (steps : ℕ) (sigma0 : ℚ) : ι → ℚ :=
  let noiseScaled := tSmul sigma0 noise
  match mask, init_audio with
  | none, some ia => tAdd ia noiseScaled
  | some m, some ia =>
      let bmask := bmaskT 0 steps m
      let input_noised := tAdd ia noiseScaled
      tAdd (tMul input_noised bmask) (tMul noiseScaled (tOneSub bmask))
  | _, none => noiseScaled

/-- The per-step record the external k-diffusion solver passes to a
registered callback: `{'x': x, 'i': i, 'sigma': sigmas[i], ...}`. -/
structure CBArgs (ι : Type) where
  i : ℕ
  x : ι → ℚ
  sigma : ℚ

/-! ### InpaintingCallbackComposer

Python:
```
def inpainting_callback(args):
    i = args["i"]
    x = args["x"]
    sigma = args["sigma"]
    input_noised = init_audio + torch.randn_like(init_audio) * sigma
    bmask = get_bmask(i, steps, mask)
    new_x = input_noised * bmask + x * (1-bmask)
    x[:,:,:] = new_x[:,:,:]
```
The fresh Gaussian draw of step `i` is modelled by `fresh i`; the in-place
mutation of the shared buffer is modelled by returning the new buffer
contents. -/
def inpainting_callback (init_audio mask : ι → ℚ) (steps : ℕ)
    (fresh : ℕ → ι → ℚ) (args : CBArgs ι) : ι → ℚ :=
  let input_noised := tAdd init_audio (tSmul args.sigma (fresh args.i))
  let bmask := bmaskT args.i steps mask
  tAdd (tMul input_noised bmask) (tMul args.x (tOneSub bmask))

/-- A registered hook, as observed through the embedding: from the solver's
per-step record it yields the buffer contents after the hook ran (the
in-place mutation) together with the list of records the caller-supplied
callback was invoked on (each holding the buffer as that callback saw it). -/
def Hook (ι : Type) := CBArgs ι → (ι → ℚ) × List (CBArgs ι)

/-- A caller-supplied callback on its own: it observes the record and does
not change the buffer. -/
def userObserver : Hook ι := fun args => (args.x, [args])

/-! Python:
```
wrapped_callback = callback
...
elif mask is not None and init_audio is not None:
    ...
    if callback is not None:
        wrapped_callback = lambda args: (inpainting_callback(args), callback(args))
```
`hasCallback` records whether the caller passed a callback.  Note that when
`callback is None` the inpainting branch leaves `wrapped_callback = None`:
the `inpainting_callback` it defined is never registered. -/
def wrappedCallback (init_audio mask : Option (ι → ℚ)) (steps : ℕ)
    (fresh : ℕ → ι → ℚ) (hasCallback : Bool) : Option (Hook ι) :=
  let base : Option (Hook ι) := if hasCallback then some userObserver else none
  match mask, init_audio with
  | some m, some ia =>
      if hasCallback then
        some (fun args =>
          let xNew := inpainting_callback ia m steps fresh args
          (xNew, [⟨args.i, xNew, args.sigma⟩]))
      else base
  | _, _ => base

end Tensors

/-! ### `sample_k`: solver dispatch

Python: an `if`/`elif` chain on `sampler_type` over the seven literals,
each returning a call into `K.sampling`; there is no `else`, so an
unmatched string falls off the end of the function and returns `None`. -/
inductive KDispatchCall where
  | heun
  | lms
  | dpmpp_2s_ancestral
  | dpm_2
  | dpm_fast
  | dpm_adaptive
  | dpmpp_2m_sde
  deriving DecidableEq

def sampleKDispatch (sampler_type : String) : Option KDispatchCall :=
  if sampler_type = "k-heun" then some .heun
  else if sampler_type = "k-lms" then some .lms
  else if sampler_type = "k-dpmpp-2s-ancestral" then some .dpmpp_2s_ancestral
  else if sampler_type = "k-dpm-2" then some .dpm_2
  else if sampler_type = "k-dpm-fast" then some .dpm_fast
  else if sampler_type = "k-dpm-adaptive" then some .dpm_adaptive
  else if sampler_type = "dpmpp-2m-sde" then some .dpmpp_2m_sde
  else none

/-! ### NoiseSchedule

Python:
```
def get_alphas_sigmas(t):
    return torch.cos(t * math.pi / 2), torch.sin(t * math.pi / 2)

def alpha_sigma_to_t(alpha, sigma):
    return torch.atan2(sigma, alpha) / math.pi * 2
```
-/
noncomputable def get_alphas_sigmas (t : ℝ) : ℝ × ℝ :=
  (Real.cos (t * π / 2), Real.sin (t * π / 2))

/-- Two-argument arctangent with the standard (C / torch) convention:
the angle of the point `(x, y)`, in `(-π, π]`. -/
noncomputable def atan2 (y x : ℝ) : ℝ :=
  if 0 < x then Real.arctan (y / x)
  else if x < 0 ∧ 0 ≤ y then Real.arctan (y / x) + π
  else if x < 0 ∧ y < 0 then Real.arctan (y / x) - π
  else if x = 0 ∧ 0 < y then π / 2
  else if x = 0 ∧ y < 0 then -(π / 2)
  else 0

noncomputable def alpha_sigma_to_t (alpha sigma : ℝ) : ℝ :=
  atan2 sigma alpha / π * 2

/-! ### DDIMSampler: `sample`

Python builds `t = torch.linspace(1, 0, steps + 1)[:-1]`, i.e. the `steps`
values `1 - i/steps` for `i = 0 .. steps-1`. -/

/-- The `i`-th timestep of the DDIM schedule with `steps` steps. -/
noncomputable def tsch (steps i : ℕ) : ℝ := 1 - (i : ℝ) / (steps : ℝ)

/-- The full timestep sequence `torch.linspace(1, 0, steps + 1)[:-1]`. -/
noncomputable def tSched (steps : ℕ) : List ℝ :=
  (List.range steps).map (tsch steps)

noncomputable def alphaOf (t : ℝ) : ℝ := (get_alphas_sigmas t).1
noncomputable def sigmaOf (t : ℝ) : ℝ := (get_alphas_sigmas t).2

/-- The body of the DDIM sampling loop, instrumented with the list of
`(buffer, timestep)` pairs at which the model is evaluated.  `rem` is the
number of loop iterations still to run (the recursion is called with
`rem = steps - i`), `i` the current step index, `x` the working buffer;
`ns j` is the fresh Gaussian draw of step `j` (used only when `eta ≠ 0`,
matching Python's `if eta:` truthiness test).  The buffer is modelled as a
single exact scalar, the elementwise arithmetic being positionwise. -/
noncomputable def sampleAux (model : ℝ → ℝ → ℝ) (steps : ℕ) (eta : ℝ)
    (ns : ℕ → ℝ) : ℕ → ℕ → ℝ → ℝ × List (ℝ × ℝ)
  | 0, _, x => (x, [])
  | rem + 1, i, x =>
      let t := tsch steps i
      let v := model x t
      let pred := x * alphaOf t - v * sigmaOf t
      let eps := x * sigmaOf t + v * alphaOf t
      if rem = 0 then (pred, [(x, t)])
      else
        let tn := tsch steps (i + 1)
        let ddim_sigma := eta * Real.sqrt (sigmaOf tn ^ 2 / sigmaOf t ^ 2) *
          Real.sqrt (1 - alphaOf t ^ 2 / alphaOf tn ^ 2)
        let adjusted_sigma := Real.sqrt (sigmaOf tn ^ 2 - ddim_sigma ^ 2)
        let xNext := pred * alphaOf tn + eps * adjusted_sigma
        let xNext2 := if eta ≠ 0 then xNext + ns i * ddim_sigma else xNext
        let rest := sampleAux model steps eta ns rem (i + 1) xNext2
        (rest.1, (x, t) :: rest.2)

/-- `sample`, instrumented: the returned prediction together with the list of
model-evaluation sites.  Meaningful for `steps ≥ 1` (the Python function
raises on `steps = 0` since `pred` is then unbound). -/
noncomputable def sampleT (model : ℝ → ℝ → ℝ) (x : ℝ) (steps : ℕ) (eta : ℝ)
    (ns : ℕ → ℝ) : ℝ × List (ℝ × ℝ) :=
  sampleAux model steps eta ns steps 0 x

/-- The value returned by the Python `sample` function. -/
noncomputable def sample (model : ℝ → ℝ → ℝ) (x : ℝ) (steps : ℕ) (eta : ℝ)
    (ns : ℕ → ℝ) : ℝ :=
  (sampleT model x steps eta ns).1

end Sampling

namespace DataUtils

/-! ### `stable_audio_tools/data/utils.py`: PadCrop and PadCrop_Normalized_T

A 2-D signal of shape `[channels, s]` is a list of `channels` rows, each of
length `s`.  `start` stands for the crop offset, drawn by the Python code
from `randint(0, max(0, s - n_samples))` (inclusive). -/

/-- One row of `PadCrop`'s output:
`output = zeros(n_samples); output[:, :min(s, n_samples)] = signal[:, start:start+n_samples]`.
Faithful whenever `start ≤ s - n_samples` or `start = 0`, the only offsets
the code produces (otherwise the Python slice assignment would raise). -/
def padCropRow (n_samples start : ℕ) (row : List ℚ) : List ℚ :=
  let seg := (row.drop start).take n_samples
  seg ++ List.replicate (n_samples - seg.length) 0

/-- `PadCrop.__call__` with crop offset `start`. -/
def PadCrop (n_samples start : ℕ) (signal : List (List ℚ)) : List (List ℚ) :=
  signal.map (padCropRow n_samples start)

/-- `PadCrop_Normalized_T.__call__` with crop offset `offset`
(`randint(0, max_offset)` when randomizing and `max_offset > 0`, else 0).
Returns `(chunk, t_start, t_end, seconds_start, total_duration_seconds,
padding_mask)`. -/
def PadCrop_Normalized_T (n_samples sample_rate offset : ℕ)
    (source : List (List ℚ)) : List (List ℚ) × ℚ × ℚ × ℚ × ℕ × List ℚ :=
  let nsrc := (source.headD []).length
  let total_duration_seconds := (nsrc + sample_rate - 1) / sample_rate
  let max_offset := nsrc - n_samples
  let seconds_start : ℚ := (offset : ℚ) / (sample_rate : ℚ)
  let t_start : ℚ := (offset : ℚ) / ((max_offset : ℚ) + (n_samples : ℚ))
  let t_end : ℚ := ((offset : ℚ) + (n_samples : ℚ)) / ((max_offset : ℚ) + (n_samples : ℚ))
  let chunk := source.map (padCropRow n_samples offset)
  let padding_mask := List.replicate (min nsrc n_samples) (1 : ℚ) ++
    List.replicate (n_samples - min nsrc n_samples) 0
  (chunk, t_start, t_end, seconds_start, total_duration_seconds, padding_mask)

end DataUtils

/-! ## Theorems -/

/-- The scalar core of mask-schedule monotonicity: a soft-mask entry locked
at step `i1` stays locked at any later step `i2 < steps`. -/
lemma get_bmask_le_mono (steps i1 i2 : ℕ) (m : ℚ) (h12 : i1 ≤ i2)
    (h2 : i2 < steps) (h1 : Sampling.get_bmask i1 steps m = 1) :
    Sampling.get_bmask i2 steps m = 1 := by
  unfold Sampling.get_bmask at h1 ⊢
  by_cases hc : m ≤ ((i1 : ℚ) + 1) / (steps : ℚ)
  · have hsteps : (0 : ℚ) < (steps : ℚ) := by
      exact_mod_cast Nat.pos_of_ne_zero (by omega)
    have hle : ((i1 : ℚ) + 1) / (steps : ℚ) ≤ ((i2 : ℚ) + 1) / (steps : ℚ) := by
      apply div_le_div_of_nonneg_right ?_ hsteps.le
      have : (i1 : ℚ) ≤ (i2 : ℚ) := by exact_mod_cast h12
      linarith
    exact if_pos (hc.trans hle)
  · rw [if_neg hc] at h1
    exact absurd h1 (by norm_num)

/-- C4: for a fixed soft mask and step count, and step indices
`i1 < i2 < steps`, every position whose binary-mask value is 1 at step `i1`
is also 1 at step `i2`: the keep-region of `get_bmask` is monotonically
non-decreasing in the step index. -/
theorem bmask_keep_region_monotone {ι : Type} (mask : ι → ℚ)
    (steps i1 i2 : ℕ) (p : ι) (h12 : i1 < i2) (h2 : i2 < steps)
    (h1 : Sampling.bmaskT i1 steps mask p = 1) :
    Sampling.bmaskT i2 steps mask p = 1 :=
  get_bmask_le_mono steps i1 i2 (mask p) (Nat.le_of_lt h12) h2 h1

/-- Witness for C4 at `steps = 4`, `i1 = 0`, `i2 = 2`, a constant soft mask
of value `1/5` (`1/5 ≤ 1/4`, so the position is locked from step 0 on). -/
theorem bmask_keep_region_monotone_witness :
    Sampling.bmaskT 2 4 (fun _ : Fin 1 => (1:ℚ)/5) 0 = 1 :=
  bmask_keep_region_monotone (fun _ : Fin 1 => (1:ℚ)/5) 4 0 2 0
    (by decide) (by decide)
    (by norm_num [Sampling.bmaskT, Sampling.get_bmask])

/-- C2, counterexample: at `steps = 4`, step `i = 0`, a soft-mask entry of
value `0` yields binary-mask value `1`, not `0`: with an all-zero soft mask
the step-0 binary mask is all-ones, refuting that it "is all-zero". -/
theorem zero_mask_bmask_is_one_not_zero :
    Sampling.get_bmask 0 4 0 = 1 ∧ ¬ Sampling.get_bmask 0 4 0 = 0 := by
  constructor
  · norm_num [Sampling.get_bmask]
  · norm_num [Sampling.get_bmask]

/-- C2, amended: in inpainting mode with an all-zero soft mask (and any
step count `steps ≥ 1`), the binary mask is all-ONES at every step, so the
initial latent coincides with Variation mode's (`init_audio + scaled
noise`) and the inpainting callback overwrites the whole buffer with the
renoised reference at every step — the reference is forced everywhere, not
never. -/
theorem zero_mask_inpainting_forces_reference {ι : Type} (steps i : ℕ)
    (noise ia : ι → ℚ) (sigma0 : ℚ) (fresh : ℕ → ι → ℚ)
    (args : Sampling.CBArgs ι) (hsteps : 1 ≤ steps) :
    Sampling.bmaskT (ι := ι) i steps (fun _ => 0) = (fun _ => (1:ℚ)) ∧
    Sampling.sampleKInit noise (some ia) (some fun _ => 0) steps sigma0 =
      Sampling.sampleKInit noise (some ia) none steps sigma0 ∧
    Sampling.inpainting_callback ia (fun _ => 0) steps fresh args =
      Sampling.tAdd ia (Sampling.tSmul args.sigma (fresh args.i)) := by
  have hsQ : (0:ℚ) < (steps : ℚ) := by exact_mod_cast hsteps
  have hbm : ∀ j : ℕ, Sampling.get_bmask j steps 0 = 1 := by
    intro j
    unfold Sampling.get_bmask
    apply if_pos
    positivity
  refine ⟨funext fun p => hbm i, ?_, ?_⟩
  · unfold Sampling.sampleKInit Sampling.bmaskT
    funext p
    simp only [Sampling.tAdd, Sampling.tMul, Sampling.tSmul, Sampling.tOneSub, hbm 0]
    ring
  · unfold Sampling.inpainting_callback Sampling.bmaskT
    funext p
    simp only [Sampling.tAdd, Sampling.tMul, Sampling.tSmul, Sampling.tOneSub, hbm args.i]
    ring

/-- Witness for the amended C2 at `steps = 4`, `i = 2`, concrete tensors
over a one-point index space. -/
theorem zero_mask_inpainting_forces_reference_witness :
    Sampling.bmaskT 2 4 (fun _ : Fin 1 => 0) = (fun _ => (1:ℚ)) ∧
    Sampling.sampleKInit (fun _ : Fin 1 => 2) (some fun _ => 3) (some fun _ => 0) 4 5 =
      Sampling.sampleKInit (fun _ : Fin 1 => 2) (some fun _ => 3) none 4 5 ∧
    Sampling.inpainting_callback (fun _ : Fin 1 => 3) (fun _ => 0) 4
      (fun n _ => (n : ℚ)) ⟨2, fun _ => 7, 9⟩ =
      Sampling.tAdd (fun _ : Fin 1 => 3) (Sampling.tSmul 9 fun _ => (2:ℚ)) :=
  zero_mask_inpainting_forces_reference 4 2 (fun _ => 2) (fun _ => 3) 5
    (fun n _ => (n : ℚ)) ⟨2, fun _ => 7, 9⟩ (by decide)

/-- C9: calling `sample_k` with `init_audio = None` and a non-`None` mask
falls into the Sampling branch: the initial latent is the noise scaled by
the first schedule entry, identical to the `mask = None` call (the mask is
silently ignored), and the registered callback is exactly the
caller-supplied one (or nothing) — no inpainting callback is composed. -/
theorem mask_without_init_audio_is_sampling {ι : Type} (noise m : ι → ℚ)
    (steps : ℕ) (sigma0 : ℚ) (fresh : ℕ → ι → ℚ) (hasCB : Bool) :
    Sampling.sampleKInit noise none (some m) steps sigma0 =
      Sampling.tSmul sigma0 noise ∧
    Sampling.sampleKInit noise none (some m) steps sigma0 =
      Sampling.sampleKInit noise none none steps sigma0 ∧
    Sampling.wrappedCallback none (some m) steps fresh hasCB =
      Sampling.wrappedCallback (ι := ι) none none steps fresh hasCB ∧
    Sampling.wrappedCallback none (some m) steps fresh hasCB =
      (if hasCB then some Sampling.userObserver else none) :=
  ⟨rfl, rfl, rfl, rfl⟩

/-- C1: in inpainting mode (both `init_audio` and `mask` supplied) with
`callback = None`, `sample_k` registers NO callback at all: the
`inpainting_callback` it defines is never handed to the external solver,
so the inpainting remix does not run at any step.  (When a caller callback
is present the composed hook is registered.)  Evaluated at a concrete
failing input. -/
theorem inpainting_without_user_callback_not_registered :
    Sampling.wrappedCallback (ι := Fin 1) (some fun _ => 1) (some fun _ => 0) 4
      (fun _ _ => 0) false = none ∧
    (Sampling.wrappedCallback (ι := Fin 1) (some fun _ => 1) (some fun _ => 0) 4
      (fun _ _ => 0) true).isSome = true :=
  ⟨rfl, rfl⟩

/-- C3: every `sampler_type` string outside the seven enumerated literals
falls through all dispatch branches of `sample_k` and yields `None` — no
explicit failure is raised. -/
theorem unknown_sampler_type_returns_none (s : String)
    (h1 : s ≠ "k-heun") (h2 : s ≠ "k-lms") (h3 : s ≠ "k-dpmpp-2s-ancestral")
    (h4 : s ≠ "k-dpm-2") (h5 : s ≠ "k-dpm-fast") (h6 : s ≠ "k-dpm-adaptive")
    (h7 : s ≠ "dpmpp-2m-sde") :
    Sampling.sampleKDispatch s = none := by
  unfold Sampling.sampleKDispatch
  rw [if_neg h1, if_neg h2, if_neg h3, if_neg h4, if_neg h5, if_neg h6, if_neg h7]

/-- Witness for C3 at the unrecognized selector `"euler"`. -/
theorem unknown_sampler_type_returns_none_witness :
    Sampling.sampleKDispatch "euler" = none :=
  unknown_sampler_type_returns_none "euler" (by decide) (by decide) (by decide)
    (by decide) (by decide) (by decide) (by decide)

/-- C5: the DDIM `sample` loop with `steps = 1`, `eta = 0` evaluates the
model exactly once — at the initial buffer and timestep 1 (the trace of
model-evaluation sites is exactly `[(x, 1)]`) — and returns
`x·alpha(1) − v·sigma(1)` where `v` is that one-shot output. -/
theorem ddim_single_step (model : ℝ → ℝ → ℝ) (x : ℝ) (ns : ℕ → ℝ) :
    Sampling.sampleT model x 1 0 ns =
      (x * Sampling.alphaOf 1 - model x 1 * Sampling.sigmaOf 1, [(x, 1)]) := by
  have ht : Sampling.tsch 1 0 = 1 := by
    unfold Sampling.tsch
    norm_num
  unfold Sampling.sampleT Sampling.sampleAux
  rw [if_pos rfl, ht]

/-- C8: with `eta = 0` the DDIM trajectory never reads the randomness
source (the `if eta:` branch is skipped), step by step. -/
lemma sampleAux_eta_zero_ns_independent (model : ℝ → ℝ → ℝ) (steps : ℕ)
    (ns1 ns2 : ℕ → ℝ) :
    ∀ rem i x, Sampling.sampleAux model steps 0 ns1 rem i x =
      Sampling.sampleAux model steps 0 ns2 rem i x := by
  intro rem
  induction rem with
  | zero => intro i x; rfl
  | succ r ih =>
      intro i x
      unfold Sampling.sampleAux
      by_cases hr : r = 0
      · rw [if_pos hr, if_pos hr]
      · simp only [if_neg hr, ne_eq, not_true_eq_false, ite_false, ih]

/-- C8: the DDIM `sample` function with `eta = 0` is a deterministic
function of its inputs: two runs on identical model, buffer and step count
yield identical outputs whatever the per-step random draws would have been
(no fresh noise is consumed). -/
theorem ddim_eta_zero_deterministic (model : ℝ → ℝ → ℝ) (x : ℝ) (N : ℕ)
    (ns1 ns2 : ℕ → ℝ) (hN : 1 ≤ N) :
    Sampling.sample model x N 0 ns1 = Sampling.sample model x N 0 ns2 := by
  unfold Sampling.sample Sampling.sampleT
  rw [sampleAux_eta_zero_ns_independent]

/-- Witness for C8 at `model = (fun a b => a + b)`, `x = 2`, `N = 3`, and
two distinct noise streams. -/
theorem ddim_eta_zero_deterministic_witness :
    Sampling.sample (fun a b => a + b) 2 3 0 (fun n => (n : ℝ)) =
      Sampling.sample (fun a b => a + b) 2 3 0 (fun n => (n : ℝ) + 1) :=
  ddim_eta_zero_deterministic (fun a b => a + b) 2 3 (fun n => (n : ℝ))
    (fun n => (n : ℝ) + 1) (by norm_num)

/-- C6: for `N ≥ 1` the DDIM timestep sequence
`torch.linspace(1, 0, N+1)[:-1]` has length `N`, starts with 1, its `k`-th
entry is `1 - k/N`, every entry lies in `(0, 1]` (so 0 is excluded), and
consecutive entries decrease strictly by exactly `1/N` (evenly spaced). -/
theorem ddim_schedule_props (N i k : ℕ) (hN : 1 ≤ N) :
    (Sampling.tSched N).length = N ∧
    (Sampling.tSched N).head? = some 1 ∧
    (k < N → (Sampling.tSched N).getD k 0 = Sampling.tsch N k ∧
      0 < Sampling.tsch N k ∧ Sampling.tsch N k ≤ 1 ∧ Sampling.tsch N k ≠ 0) ∧
    (i + 1 < N → Sampling.tsch N (i + 1) < Sampling.tsch N i ∧
      Sampling.tsch N i - Sampling.tsch N (i + 1) = 1 / (N : ℝ)) := by
  have hN0 : (0 : ℝ) < (N : ℝ) := by exact_mod_cast hN
  refine ⟨?_, ?_, ?_, ?_⟩
  · simp [Sampling.tSched]
  · obtain ⟨m, rfl⟩ : ∃ m, N = m + 1 := ⟨N - 1, by omega⟩
    simp [Sampling.tSched, List.range_succ_eq_map, Sampling.tsch]
  · intro hk
    have hkN : (k : ℝ) < (N : ℝ) := by exact_mod_cast hk
    have hpos : 0 < Sampling.tsch N k := by
      unfold Sampling.tsch
      have : (k : ℝ) / (N : ℝ) < 1 := (div_lt_one hN0).mpr hkN
      linarith
    refine ⟨?_, hpos, ?_, ne_of_gt hpos⟩
    · unfold Sampling.tSched
      rw [List.getD_eq_getElem?_getD]
      rw [List.getElem?_map]
      simp [List.getElem?_range hk]
    · unfold Sampling.tsch
      have : 0 ≤ (k : ℝ) / (N : ℝ) := by positivity
      linarith
  · intro hi
    have hii : (i : ℝ) / (N : ℝ) < ((i : ℝ) + 1) / (N : ℝ) :=
      (div_lt_div_iff_of_pos_right hN0).mpr (by linarith)
    constructor
    · unfold Sampling.tsch
      push_cast
      have : (i : ℝ) / (N : ℝ) < ((i : ℝ) + 1) / (N : ℝ) := hii
      linarith
    · unfold Sampling.tsch
      push_cast
      field_simp

/-- Witness for C6 at `N = 4`, `i = 1`, `k = 3`. -/
theorem ddim_schedule_props_witness :
    (Sampling.tSched 4).length = 4 ∧
    (Sampling.tSched 4).head? = some 1 ∧
    (3 < 4 → (Sampling.tSched 4).getD 3 0 = Sampling.tsch 4 3 ∧
      0 < Sampling.tsch 4 3 ∧ Sampling.tsch 4 3 ≤ 1 ∧ Sampling.tsch 4 3 ≠ 0) ∧
    (1 + 1 < 4 → Sampling.tsch 4 (1 + 1) < Sampling.tsch 4 1 ∧
      Sampling.tsch 4 1 - Sampling.tsch 4 (1 + 1) = 1 / (4 : ℝ)) :=
  ddim_schedule_props 4 1 3 (by norm_num)

/-- C7: the NoiseSchedule round-trip law: for `t ∈ (0,1)`,
`alpha_sigma_to_t` applied to the pair `get_alphas_sigmas t` recovers `t`
exactly (`atan2(sin(tπ/2), cos(tπ/2)) · 2/π = t`). -/
theorem alpha_sigma_roundtrip (t : ℝ) (h0 : 0 < t) (h1 : t < 1) :
    Sampling.alpha_sigma_to_t (Sampling.get_alphas_sigmas t).1
      (Sampling.get_alphas_sigmas t).2 = t := by
  have hpi := Real.pi_pos
  have hθlt : t * π / 2 < π / 2 := by nlinarith
  have hθ0 : 0 < t * π / 2 := by positivity
  have hcos : 0 < Real.cos (t * π / 2) :=
    Real.cos_pos_of_mem_Ioo ⟨by linarith, hθlt⟩
  unfold Sampling.alpha_sigma_to_t Sampling.atan2 Sampling.get_alphas_sigmas
  simp only
  rw [if_pos hcos, ← Real.tan_eq_sin_div_cos,
    Real.arctan_tan (by linarith) hθlt]
  field_simp
  ring

/-- Witness for C7 at `t = 1/2`. -/
theorem alpha_sigma_roundtrip_witness :
    Sampling.alpha_sigma_to_t (Sampling.get_alphas_sigmas (1/2)).1
      (Sampling.get_alphas_sigmas (1/2)).2 = 1/2 :=
  alpha_sigma_roundtrip (1/2) (by norm_num) (by norm_num)

/-- Each output row of the crop/pad has exactly the target length. -/
lemma padCropRow_length (n start : ℕ) (row : List ℚ) :
    (DataUtils.padCropRow n start row).length = n := by
  unfold DataUtils.padCropRow
  simp only [List.length_append, List.length_replicate, List.length_take,
    List.length_drop]
  omega

/-- C10: for every 2-D signal (list of channel rows of common length `s`)
and every crop offset the RNG can produce (`start ≤ max(0, s - n_samples)`,
which in ℕ is `start ≤ s - n_samples`), `PadCrop` returns a signal of shape
`[channels, n_samples]` exactly, and the chunk returned by
`PadCrop_Normalized_T` likewise has shape `[channels, n_samples]`; when the
input is shorter than the target, the tail of each output row is zero
padding. -/
theorem padcrop_shape (n_samples start s sr : ℕ) (signal : List (List ℚ))
    (row : List ℚ) (hrect : ∀ r ∈ signal, r.length = s)
    (hrow : row ∈ signal) (hstart : start ≤ s - n_samples) :
    (DataUtils.PadCrop n_samples start signal).length = signal.length ∧
    DataUtils.PadCrop n_samples start signal =
      signal.map (DataUtils.padCropRow n_samples start) ∧
    (DataUtils.padCropRow n_samples start row).length = n_samples ∧
    (DataUtils.PadCrop_Normalized_T n_samples sr start signal).1.length =
      signal.length ∧
    (DataUtils.PadCrop_Normalized_T n_samples sr start signal).1 =
      signal.map (DataUtils.padCropRow n_samples start) ∧
    (s < n_samples →
      (DataUtils.padCropRow n_samples start row).drop s =
        List.replicate (n_samples - s) 0) := by
  refine ⟨by simp [DataUtils.PadCrop], rfl,
    padCropRow_length n_samples start row,
    by simp [DataUtils.PadCrop_Normalized_T], rfl, ?_⟩
  intro hs
  have hlen : row.length = s := hrect row hrow
  have hstart0 : start = 0 := by omega
  subst hstart0
  unfold DataUtils.padCropRow
  have htake : (row.drop 0).take n_samples = row := by
    rw [List.drop_zero]
    exact List.take_of_length_le (by omega)
  rw [htake]
  simp only [hlen]
  rw [← hlen, List.drop_left]

/-- Witness for C10: signal `[[1,2,3],[4,5,6]]` (`s = 3`), target length 2,
crop offset 1, first row. -/
theorem padcrop_shape_witness :
    (DataUtils.PadCrop 2 1 [[1, 2, 3], [4, 5, 6]]).length =
      ([[1, 2, 3], [4, 5, 6]] : List (List ℚ)).length ∧
    DataUtils.PadCrop 2 1 [[1, 2, 3], [4, 5, 6]] =
      ([[1, 2, 3], [4, 5, 6]] : List (List ℚ)).map (DataUtils.padCropRow 2 1) ∧
    (DataUtils.padCropRow 2 1 [1, 2, 3]).length = 2 ∧
    (DataUtils.PadCrop_Normalized_T 2 10 1 [[1, 2, 3], [4, 5, 6]]).1.length =
      ([[1, 2, 3], [4, 5, 6]] : List (List ℚ)).length ∧
    (DataUtils.PadCrop_Normalized_T 2 10 1 [[1, 2, 3], [4, 5, 6]]).1 =
      ([[1, 2, 3], [4, 5, 6]] : List (List ℚ)).map (DataUtils.padCropRow 2 1) ∧
    ((3:ℕ) < 2 →
      (DataUtils.padCropRow 2 1 [1, 2, 3]).drop 3 = List.replicate (2 - 3) 0) :=
  padcrop_shape 2 1 3 10 [[1, 2, 3], [4, 5, 6]] [1, 2, 3]
    (by intro r hr; fin_cases hr <;> rfl) (by simp) (by decide)
